import Mathlib

/-!
Verification of the frame obfuscation codec in `internal/multiplex/obfs.go`.

The Go source is shallowly embedded: bytes are natural numbers (kept below
256 by construction or by explicit hypotheses where that matters), byte
slices are lists, and the two external cryptographic primitives are
abstracted exactly at the boundary the Go code itself uses:

* `salsa20.XORKeyStream` is parametrised by an arbitrary keystream
  function `ks : List Nat → Nat → Nat` (nonce and position to keystream
  byte); every obfuscation fact proved here holds for every keystream,
  in particular for the real salsa20 keystream under the fixed key.
* `cipher.AEAD` is a structure `AEAD` carrying `Seal`, `Open` and
  `Overhead` together with the two laws that the Go `cipher.AEAD`
  interface documents: sealing adds exactly `Overhead` bytes, and
  `Open` inverts `Seal` at the same nonce.
-/

namespace Multiplex

/-- Modelled from the spec: the Frame data unit (its defining file is not
part of src/): stream_id is an unsigned 32-bit integer, seq an unsigned
64-bit integer, closing a single byte, payload an opaque byte sequence. -/
structure Frame where
  StreamID : Nat
  Seq : Nat
  Closing : Nat
  Payload : List Nat
  deriving DecidableEq

/-- Big-endian Uint32 reader, `binary.BigEndian.Uint32` on `b[0:4]`. -/
def u32 (b : List Nat) : Nat :=
  b.getD 0 0 * 2 ^ 24 + b.getD 1 0 * 2 ^ 16 + b.getD 2 0 * 2 ^ 8 + b.getD 3 0

/-- Big-endian Uint64 reader, `binary.BigEndian.Uint64` on `b[0:8]`. -/
def u64 (b : List Nat) : Nat :=
  b.getD 0 0 * 2 ^ 56 + b.getD 1 0 * 2 ^ 48 + b.getD 2 0 * 2 ^ 40 + b.getD 3 0 * 2 ^ 32 +
    b.getD 4 0 * 2 ^ 24 + b.getD 5 0 * 2 ^ 16 + b.getD 6 0 * 2 ^ 8 + b.getD 7 0

/-- Big-endian Uint16 reader. -/
def u16 (b : List Nat) : Nat := b.getD 0 0 * 2 ^ 8 + b.getD 1 0

/-- `binary.BigEndian.PutUint16`, with the Go `uint16(x)` truncation folded
into the byte arithmetic. -/
def putU16 (x : Nat) : List Nat := [x / 2 ^ 8 % 256, x % 256]

/-- `binary.BigEndian.PutUint32`. -/
def putU32 (x : Nat) : List Nat :=
  [x / 2 ^ 24 % 256, x / 2 ^ 16 % 256, x / 2 ^ 8 % 256, x % 256]

/-- `binary.BigEndian.PutUint64`. -/
def putU64 (x : Nat) : List Nat :=
  [x / 2 ^ 56 % 256, x / 2 ^ 48 % 256, x / 2 ^ 40 % 256, x / 2 ^ 32 % 256,
   x / 2 ^ 24 % 256, x / 2 ^ 16 % 256, x / 2 ^ 8 % 256, x % 256]

/-- `salsa20.XORKeyStream` under a fixed key and nonce: XOR the data with
the keystream bytes starting at position `i`.  The keystream function is
abstract; only the XOR structure of the Go call is modelled. -/
def xorKS (ks : Nat → Nat) (i : Nat) : List Nat → List Nat
  | [] => []
  | b :: rest => (b ^^^ ks i) :: xorKS ks (i + 1) rest

/-- The Go `cipher.AEAD` interface restricted to the shape the codec uses
(`Seal(nil, nonce, plaintext, nil)` and `Open(dst, nonce, ciphertext, nil)`),
together with the two laws its documentation guarantees. -/
structure AEAD where
  Seal : List Nat → List Nat → List Nat
  Open : List Nat → List Nat → Option (List Nat)
  Overhead : Nat
  seal_length : ∀ nonce pt, (Seal nonce pt).length = pt.length + Overhead
  open_seal : ∀ nonce pt, Open nonce (Seal nonce pt) = some pt

def HEADER_LEN : Nat := 14

def E_METHOD_PLAIN : Nat := 0
def E_METHOD_AES_GCM : Nat := 1
def E_METHOD_CHACHA20_POLY1305 : Nat := 2

/-- The single error `obfs` can return: "buffer is too small". -/
inductive ObfsError
  | bufferTooSmall
  deriving DecidableEq

/-- The errors `deobfs` can return: the short-input error, the
"extra length is greater than total pldWithOverHead length" error, and a
propagated `payloadCipher.Open` authentication error. -/
inductive DeobfsError
  | tooShort
  | badExtraLen
  | openErr
  deriving DecidableEq

/-- `rlLen` as computed in `MakeObfs`/`MakeDeobfs`: 5 when the fake record
layer is enabled, otherwise 0. -/
def rlLenOf (hasRecordLayer : Bool) : Nat := if hasRecordLayer then 5 else 0

/-- The `extraLen` computation at the top of the `obfs` closure, including
the Go `uint8` casts. -/
def extraLenOf (payloadCipher : Option AEAD) (payloadLen : Nat) : Nat :=
  match payloadCipher with
  | none => if payloadLen < 8 then 8 - payloadLen else 0
  | some c => c.Overhead % 256

/-- The `obfs` closure produced by `MakeObfs`.  `ks` is the salsa20
keystream under the captured `salsaKey`; `rnd` supplies the bytes that
`rand.Read` writes into the padding region.  The result is the pair of the
Go return value and the final contents of the caller's buffer: on the
buffer-too-small error the buffer is returned untouched, on success the
first `usefulLen` bytes are the written message and the rest of the buffer
is unchanged.  The `.take (f.Payload.length + extraLen)` on the sealed
ciphertext models the Go `copy(encryptedPayloadWithExtra, ciphertext)`,
which cannot write past the destination slice. -/
def obfs (ks : List Nat → Nat → Nat) (payloadCipher : Option AEAD) (hasRecordLayer : Bool)
    (rnd : Nat → Nat) (f : Frame) (buf : List Nat) : Except ObfsError Nat × List Nat :=
  let rlLen := rlLenOf hasRecordLayer
  let extraLen := extraLenOf payloadCipher f.Payload.length
  let usefulLen := rlLen + HEADER_LEN + f.Payload.length + extraLen
  if buf.length < usefulLen then (Except.error ObfsError.bufferTooSmall, buf)
  else
    let header := putU32 f.StreamID ++ putU64 f.Seq ++ [f.Closing, extraLen]
    let encryptedPayloadWithExtra :=
      match payloadCipher with
      | none => f.Payload ++ (List.range extraLen).map rnd
      | some c => (c.Seal (header.take 12) f.Payload).take (f.Payload.length + extraLen)
    let nonce := encryptedPayloadWithExtra.drop (encryptedPayloadWithExtra.length - 8)
    let obfsedHeader := xorKS (ks nonce) 0 header
    let recordLayer :=
      if hasRecordLayer then
        [0x17, 0x03, 0x03] ++ putU16 (HEADER_LEN + encryptedPayloadWithExtra.length)
      else []
    (Except.ok usefulLen, recordLayer ++ obfsedHeader ++ encryptedPayloadWithExtra ++ buf.drop usefulLen)

/-- The `deobfs` closure produced by `MakeDeobfs`.  The in-place
`payloadCipher.Open(pldWithOverHead[:0], ...)` of the Go code leaves the
buffer holding the plaintext followed by the untouched ciphertext tail;
`outputPayload = pldWithOverHead[:usefulPayloadLen]` is therefore modelled
as `(pt ++ pldWithOverHead.drop pt.length).take usefulPayloadLen`. -/
def deobfs (ks : List Nat → Nat → Nat) (payloadCipher : Option AEAD) (hasRecordLayer : Bool)
    (inp : List Nat) : Except DeobfsError Frame :=
  let rlLen := rlLenOf hasRecordLayer
  if inp.length < rlLen + HEADER_LEN + 8 then Except.error DeobfsError.tooShort
  else
    let peeled := inp.drop rlLen
    let nonce := peeled.drop (peeled.length - 8)
    let header := xorKS (ks nonce) 0 (peeled.take HEADER_LEN)
    let pldWithOverHead := peeled.drop HEADER_LEN
    let streamID := u32 header
    let seq := u64 (header.drop 4)
    let closing := header.getD 12 0
    let extraLen := header.getD 13 0
    if pldWithOverHead.length < extraLen then Except.error DeobfsError.badExtraLen
    else
      let usefulPayloadLen := pldWithOverHead.length - extraLen
      match payloadCipher with
      | none =>
        if extraLen = 0 then Except.ok ⟨streamID, seq, closing, pldWithOverHead⟩
        else Except.ok ⟨streamID, seq, closing, pldWithOverHead.take usefulPayloadLen⟩
      | some c =>
        match c.Open (header.take 12) pldWithOverHead with
        | none => Except.error DeobfsError.openErr
        | some pt =>
          Except.ok ⟨streamID, seq, closing, (pt ++ pldWithOverHead.drop pt.length).take usefulPayloadLen⟩

/-- The decoder with the caller's input buffer threaded explicitly as
mutable state.  Every Go statement that writes memory is translated with
its target spelled out: `peeled` is a fresh allocation filled by `copy`
from `inp[rlLen:]`, the salsa20 call rewrites the first `HEADER_LEN` bytes
of `peeled` (giving `peeled1`), and the in-place `Open` rewrites its
payload part (giving `peeled2`).  No statement of the source targets
`inp`, so every exit returns `inp` as the final buffer contents. -/
def deobfsMem (ks : List Nat → Nat → Nat) (payloadCipher : Option AEAD) (hasRecordLayer : Bool)
    (inp : List Nat) : Except DeobfsError Frame × List Nat :=
  let rlLen := rlLenOf hasRecordLayer
  if inp.length < rlLen + HEADER_LEN + 8 then (Except.error DeobfsError.tooShort, inp)
  else
    let peeled := inp.drop rlLen
    let nonce := peeled.drop (peeled.length - 8)
    let peeled1 := xorKS (ks nonce) 0 (peeled.take HEADER_LEN) ++ peeled.drop HEADER_LEN
    let header := peeled1.take HEADER_LEN
    let pldWithOverHead := peeled1.drop HEADER_LEN
    let streamID := u32 header
    let seq := u64 (header.drop 4)
    let closing := header.getD 12 0
    let extraLen := header.getD 13 0
    if pldWithOverHead.length < extraLen then (Except.error DeobfsError.badExtraLen, inp)
    else
      let usefulPayloadLen := pldWithOverHead.length - extraLen
      match payloadCipher with
      | none =>
        if extraLen = 0 then (Except.ok ⟨streamID, seq, closing, pldWithOverHead⟩, inp)
        else (Except.ok ⟨streamID, seq, closing, pldWithOverHead.take usefulPayloadLen⟩, inp)
      | some c =>
        match c.Open (header.take 12) pldWithOverHead with
        | none => (Except.error DeobfsError.openErr, inp)
        | some pt =>
          let peeled2 := header ++ (pt ++ pldWithOverHead.drop pt.length)
          (Except.ok ⟨streamID, seq, closing, (peeled2.drop HEADER_LEN).take usefulPayloadLen⟩, inp)

/-- The errors `GenerateObfs` can produce: its own key-size error, the
`aes.NewCipher` key-size error, the `chacha20poly1305.New` key-length
error, and the unknown-method error. -/
inductive GenError
  | invalidKeySize
  | aesKeySize
  | chachaKeySize
  | unknownMethod
  deriving DecidableEq

/-- The `Obfuscator` bundle.  The Go struct holds the two closures and the
session key; the closures are determined by the captured
`(salsaKey, payloadCipher, hasRecordLayer)`, which is what is stored here. -/
structure Obfuscator where
  payloadCipher : Option AEAD
  salsaKey : List Nat
  hasRecordLayer : Bool
  SessionKey : List Nat

/-- `GenerateObfs`, translated statement by statement.  `mkGCM` and `mkCC`
stand for the AEAD values built by `cipher.NewGCM(aes.NewCipher(key))` and
`chacha20poly1305.New(key)`.  Modelled external-library behaviour
(documented contracts of the Go standard library and x/crypto):
`aes.NewCipher` fails exactly when the key length is not 16, 24 or 32;
`cipher.NewGCM` succeeds on any AES block cipher; `chacha20poly1305.New`
fails exactly when the key length is not 32.  Note the faithful quirks of
the source: the key-size check assigns `err` without returning, and the
later `c, err = aes.NewCipher(...)` / `payloadCipher, err = ...`
assignments overwrite `err`. -/
def GenerateObfs (mkGCM mkCC : List Nat → AEAD) (encryptionMethod : Nat)
    (sessionKey : List Nat) (hasRecordLayer : Bool) : Option Obfuscator × Option GenError :=
  let errKeySize : Option GenError :=
    if sessionKey.length ≠ 32 then some GenError.invalidKeySize else none
  let salsaKey := (sessionKey ++ List.replicate 32 0).take 32
  if encryptionMethod = E_METHOD_PLAIN then
    (some ⟨none, salsaKey, hasRecordLayer, sessionKey⟩, errKeySize)
  else if encryptionMethod = E_METHOD_AES_GCM then
    if sessionKey.length = 16 ∨ sessionKey.length = 24 ∨ sessionKey.length = 32 then
      (some ⟨some (mkGCM sessionKey), salsaKey, hasRecordLayer, sessionKey⟩, none)
    else (none, some GenError.aesKeySize)
  else if encryptionMethod = E_METHOD_CHACHA20_POLY1305 then
    if sessionKey.length = 32 then
      (some ⟨some (mkCC sessionKey), salsaKey, hasRecordLayer, sessionKey⟩, none)
    else (none, some GenError.chachaKeySize)
  else (none, some GenError.unknownMethod)

/-- 16-byte tag of the concrete test cipher: the first 12 bytes repeat the
nonce (zero-padded), byte 12 is the plaintext byte sum mod 256, bytes
13 to 15 are zero. -/
def tagOf (nonce pt : List Nat) : List Nat :=
  (nonce ++ List.replicate 12 0).take 12 ++ [pt.sum % 256, 0, 0, 0]

def toySeal (nonce pt : List Nat) : List Nat := pt ++ tagOf nonce pt

def toyOpen (nonce ct : List Nat) : Option (List Nat) :=
  if 16 ≤ ct.length ∧ ct.drop (ct.length - 16) = tagOf nonce (ct.take (ct.length - 16)) then
    some (ct.take (ct.length - 16))
  else none

/-- A concrete executable AEAD instance used to instantiate theorems about
the codec at concrete inputs. -/
def toy : AEAD where
  Seal := toySeal
  Open := toyOpen
  Overhead := 16
  seal_length := by
    intro n pt
    simp [toySeal, tagOf]
  open_seal := by
    intro n pt
    have hlen : (toySeal n pt).length = pt.length + 16 := by simp [toySeal, tagOf]
    have htag : (tagOf n pt).length = 16 := by simp [tagOf]
    unfold toyOpen
    rw [hlen]
    have h1 : pt.length + 16 - 16 = pt.length := by omega
    rw [h1]
    have hdrop : (toySeal n pt).drop pt.length = tagOf n pt := by
      simp [toySeal]
    have htake : (toySeal n pt).take pt.length = pt := by
      simp [toySeal]
    rw [hdrop, htake]
    simp

/-- `l₁` and `l₂` have the same length and differ at exactly one
position. -/
def DiffAtOne (l₁ l₂ : List Nat) : Prop :=
  l₁.length = l₂.length ∧
    ∃ i, i < l₁.length ∧ l₁[i]? ≠ l₂[i]? ∧ ∀ j, j ≠ i → l₁[j]? = l₂[j]?

instance : DecidableEq (Except DeobfsError Frame) := fun a b =>
  match a, b with
  | Except.error e, Except.error e' =>
    if h : e = e' then .isTrue (by rw [h])
    else .isFalse (fun hh => by cases hh; exact h rfl)
  | Except.error _, Except.ok _ => .isFalse (fun hh => by cases hh)
  | Except.ok _, Except.error _ => .isFalse (fun hh => by cases hh)
  | Except.ok g, Except.ok g' =>
    if h : g = g' then .isTrue (by rw [h])
    else .isFalse (fun hh => by cases hh; exact h rfl)

/-- All-zero keystream, used for concrete instantiations. -/
def ks0 : List Nat → Nat → Nat := fun _ _ => 0

/-- All-zero randomness source, used for concrete instantiations. -/
def rnd0 : Nat → Nat := fun _ => 0

/-- A concrete frame used for concrete instantiations. -/
def f0 : Frame := ⟨1, 2, 0, [1, 2, 3, 4]⟩

/-- A keystream that is all-zero at the honest nonce of `f0`'s encoding
under `toy` and all-255 at every other nonce; used to exhibit the
behaviour of a bit flip inside the 8-byte nonce tail. -/
def ksX : List Nat → Nat → Nat :=
  fun n _ => if n = [0, 0, 0, 2, 10, 0, 0, 0] then 0 else 255

/-- A 14-byte wire header with the given field values. -/
def mkHeader (sid seq cl e : Nat) : List Nat :=
  putU32 sid ++ putU64 seq ++ [cl, e]

/-- The wire header written by `obfs` before obfuscation. -/
def encHeader (payloadCipher : Option AEAD) (f : Frame) : List Nat :=
  putU32 f.StreamID ++ putU64 f.Seq ++ [f.Closing, extraLenOf payloadCipher f.Payload.length]

/-- The `encryptedPayloadWithExtra` region written by `obfs`. -/
def encRegion (payloadCipher : Option AEAD) (rnd : Nat → Nat) (f : Frame) : List Nat :=
  match payloadCipher with
  | none => f.Payload ++ (List.range (extraLenOf none f.Payload.length)).map rnd
  | some c =>
    (c.Seal ((encHeader (some c) f).take 12) f.Payload).take
      (f.Payload.length + extraLenOf (some c) f.Payload.length)

/-- The last 8 bytes of the payload region, used by `obfs` as the salsa20
header-obfuscation nonce. -/
def encNonce (payloadCipher : Option AEAD) (rnd : Nat → Nat) (f : Frame) : List Nat :=
  (encRegion payloadCipher rnd f).drop ((encRegion payloadCipher rnd f).length - 8)

/-- The fake record-layer bytes written by `obfs` when enabled. -/
def recordLayerOf (hasRecordLayer : Bool) (bodyLen : Nat) : List Nat :=
  if hasRecordLayer then [0x17, 0x03, 0x03] ++ putU16 (HEADER_LEN + bodyLen) else []

/-- `usefulLen` as computed by `obfs`. -/
def usefulLenOf (payloadCipher : Option AEAD) (hasRecordLayer : Bool) (payloadLen : Nat) : Nat :=
  rlLenOf hasRecordLayer + HEADER_LEN + payloadLen + extraLenOf payloadCipher payloadLen

/-- The full wire message produced by a successful `obfs` call. -/
def wireOf (ks : List Nat → Nat → Nat) (payloadCipher : Option AEAD) (hasRecordLayer : Bool)
    (rnd : Nat → Nat) (f : Frame) : List Nat :=
  recordLayerOf hasRecordLayer (encRegion payloadCipher rnd f).length ++
    xorKS (ks (encNonce payloadCipher rnd f)) 0 (encHeader payloadCipher f) ++
    encRegion payloadCipher rnd f

/-- The de-obfuscated `extraLen` header byte as recomputed by `deobfs` on an
arbitrary input (meaningful when the input passes the length check). -/
def deobfsExtraLen (ks : List Nat → Nat → Nat) (hasRecordLayer : Bool) (inp : List Nat) : Nat :=
  (xorKS
      (ks ((inp.drop (rlLenOf hasRecordLayer)).drop
        ((inp.drop (rlLenOf hasRecordLayer)).length - 8))) 0
      ((inp.drop (rlLenOf hasRecordLayer)).take HEADER_LEN)).getD 13 0

theorem xorKS_length (ks : Nat → Nat) (i : Nat) (l : List Nat) :
    (xorKS ks i l).length = l.length := by
  induction l generalizing i with
  | nil => rfl
  | cons b rest ih => simp [xorKS, ih]

theorem xorKS_xorKS (ks : Nat → Nat) (i : Nat) (l : List Nat) :
    xorKS ks i (xorKS ks i l) = l := by
  induction l generalizing i with
  | nil => rfl
  | cons b rest ih =>
    simp only [xorKS, ih]
    congr 1
    rw [Nat.xor_assoc, Nat.xor_self, Nat.xor_zero]

theorem xorKS_getD (ks : Nat → Nat) (i : Nat) (l : List Nat) (j : Nat) (h : j < l.length) :
    (xorKS ks i l).getD j 0 = l.getD j 0 ^^^ ks (i + j) := by
  induction l generalizing i j with
  | nil => simp at h
  | cons b rest ih =>
    cases j with
    | zero => simp [xorKS]
    | succ j' =>
      simp only [xorKS, List.getD_cons_succ]
      rw [ih (i + 1) j' (by simpa using h)]
      congr 2
      omega

theorem xorKS_set (ks : Nat → Nat) (i : Nat) (l : List Nat) (j : Nat) (v : Nat) :
    xorKS ks i (l.set j v) = (xorKS ks i l).set j (v ^^^ ks (i + j)) := by
  induction l generalizing i j with
  | nil => simp [xorKS]
  | cons b rest ih =>
    cases j with
    | zero => simp [xorKS]
    | succ j' =>
      simp only [List.set_cons_succ, xorKS, ih]
      have h : i + 1 + j' = i + (j' + 1) := by omega
      rw [h]

theorem putU32_length (x : Nat) : (putU32 x).length = 4 := by simp [putU32]

theorem putU64_length (x : Nat) : (putU64 x).length = 8 := by simp [putU64]

theorem u32_putU32 (x : Nat) (h : x < 2 ^ 32) : u32 (putU32 x) = x := by
  simp only [u32, putU32, List.getD_cons_zero, List.getD_cons_succ]
  omega

theorem u64_putU64 (x : Nat) (h : x < 2 ^ 64) : u64 (putU64 x) = x := by
  simp only [u64, putU64, List.getD_cons_zero, List.getD_cons_succ]
  omega

theorem putU32_bytes (x : Nat) : ∀ b ∈ putU32 x, b < 256 := by
  simp only [putU32, List.mem_cons, List.not_mem_nil, or_false]
  rintro b (rfl | rfl | rfl | rfl) <;> omega

theorem putU64_bytes (x : Nat) : ∀ b ∈ putU64 x, b < 256 := by
  simp only [putU64, List.mem_cons, List.not_mem_nil, or_false]
  rintro b (rfl | rfl | rfl | rfl | rfl | rfl | rfl | rfl) <;> omega

theorem encHeader_length (c? : Option AEAD) (f : Frame) : (encHeader c? f).length = 14 := by
  simp [encHeader, putU32, putU64]

theorem u32_encHeader (c? : Option AEAD) (f : Frame) (h : f.StreamID < 2 ^ 32) :
    u32 (encHeader c? f) = f.StreamID := by
  simp only [encHeader, putU32, putU64, List.cons_append, List.nil_append, u32,
    List.getD_cons_zero, List.getD_cons_succ]
  omega

theorem u64_encHeader (c? : Option AEAD) (f : Frame) (h : f.Seq < 2 ^ 64) :
    u64 ((encHeader c? f).drop 4) = f.Seq := by
  simp only [encHeader, putU32, putU64, List.cons_append, List.nil_append, List.drop_succ_cons,
    List.drop_zero, u64, List.getD_cons_zero, List.getD_cons_succ]
  omega

theorem encHeader_getD_12 (c? : Option AEAD) (f : Frame) :
    (encHeader c? f).getD 12 0 = f.Closing := by
  simp [encHeader, putU32, putU64]

theorem encHeader_getD_13 (c? : Option AEAD) (f : Frame) :
    (encHeader c? f).getD 13 0 = extraLenOf c? f.Payload.length := by
  simp [encHeader, putU32, putU64]

theorem encHeader_take_12 (c? : Option AEAD) (f : Frame) :
    (encHeader c? f).take 12 = putU32 f.StreamID ++ putU64 f.Seq := by
  simp [encHeader, putU32, putU64]

/-- The 12-byte AEAD nonces of distinct (stream id, seq) pairs are distinct. -/
theorem nonce12_inj (sid seq sid' seq' : Nat) (h1 : sid < 2 ^ 32) (h2 : seq < 2 ^ 64)
    (h3 : sid' < 2 ^ 32) (h4 : seq' < 2 ^ 64)
    (hne : (sid', seq') ≠ (sid, seq)) :
    putU32 sid' ++ putU64 seq' ≠ putU32 sid ++ putU64 seq := by
  intro h
  apply hne
  simp only [putU32, putU64, List.cons_append, List.nil_append, List.cons.injEq, and_true] at h
  obtain ⟨a1, a2, a3, a4, b1, b2, b3, b4, b5, b6, b7, b8⟩ := h
  have : sid' = sid := by omega
  have : seq' = seq := by omega
  simp_all

theorem extraLenOf_plain_ge (n : Nat) : n < 8 → extraLenOf none n = 8 - n := by
  intro h
  simp [extraLenOf, h]

theorem encRegion_length (c? : Option AEAD) (rnd : Nat → Nat) (f : Frame) :
    (encRegion c? rnd f).length = f.Payload.length + extraLenOf c? f.Payload.length := by
  match c? with
  | none => simp [encRegion]
  | some c =>
    simp only [encRegion, List.length_take, c.seal_length]
    have := Nat.mod_le c.Overhead 256
    simp only [extraLenOf]
    omega

theorem encRegion_seal (c : AEAD) (rnd : Nat → Nat) (f : Frame) (h : c.Overhead < 256) :
    encRegion (some c) rnd f = c.Seal (putU32 f.StreamID ++ putU64 f.Seq) f.Payload := by
  have he : extraLenOf (some c) f.Payload.length = c.Overhead := by
    simp [extraLenOf, Nat.mod_eq_of_lt h]
  simp only [encRegion, he, encHeader_take_12]
  exact List.take_of_length_le (by rw [c.seal_length])

theorem encRegion_length_ge (c? : Option AEAD) (rnd : Nat → Nat) (f : Frame)
    (h : ∀ c, c? = some c → 8 ≤ c.Overhead ∧ c.Overhead < 256) :
    8 ≤ (encRegion c? rnd f).length := by
  rw [encRegion_length]
  match c? with
  | none =>
    simp only [extraLenOf]
    split <;> omega
  | some c =>
    obtain ⟨h8, h256⟩ := h c rfl
    simp only [extraLenOf, Nat.mod_eq_of_lt h256]
    omega

theorem recordLayerOf_length (rl : Bool) (n : Nat) :
    (recordLayerOf rl n).length = rlLenOf rl := by
  cases rl <;> simp [recordLayerOf, rlLenOf, putU16]

theorem wireOf_length (ks : List Nat → Nat → Nat) (c? : Option AEAD) (rl : Bool)
    (rnd : Nat → Nat) (f : Frame) :
    (wireOf ks c? rl rnd f).length = usefulLenOf c? rl f.Payload.length := by
  simp only [wireOf, usefulLenOf, List.length_append, recordLayerOf_length, xorKS_length,
    encHeader_length, encRegion_length, HEADER_LEN]
  omega

/-- Characterization of a successful `obfs` call: the result is `usefulLen`
and the buffer holds the wire message followed by its own untouched tail. -/
theorem obfs_spec (ks : List Nat → Nat → Nat) (c? : Option AEAD) (rl : Bool)
    (rnd : Nat → Nat) (f : Frame) (buf : List Nat)
    (hbuf : usefulLenOf c? rl f.Payload.length ≤ buf.length) :
    obfs ks c? rl rnd f buf =
      (Except.ok (usefulLenOf c? rl f.Payload.length),
        wireOf ks c? rl rnd f ++ buf.drop (usefulLenOf c? rl f.Payload.length)) := by
  have hnot : ¬ buf.length < rlLenOf rl + HEADER_LEN + f.Payload.length +
      extraLenOf c? f.Payload.length := by
    simp only [usefulLenOf] at hbuf
    omega
  match c? with
  | none =>
    simp only [obfs, usefulLenOf, wireOf, recordLayerOf, encNonce, encRegion, encHeader,
      List.append_assoc, if_neg hnot]
  | some c =>
    simp only [obfs, usefulLenOf, wireOf, recordLayerOf, encNonce, encRegion, encHeader,
      List.append_assoc, if_neg hnot]

theorem obfs_wire (ks : List Nat → Nat → Nat) (c? : Option AEAD) (rl : Bool)
    (rnd : Nat → Nat) (f : Frame) (buf : List Nat)
    (hbuf : usefulLenOf c? rl f.Payload.length ≤ buf.length) :
    (obfs ks c? rl rnd f buf).2.take (usefulLenOf c? rl f.Payload.length) =
      wireOf ks c? rl rnd f := by
  rw [obfs_spec ks c? rl rnd f buf hbuf]
  exact List.take_left' (wireOf_length ks c? rl rnd f)

/-- Characterization of `deobfs` on any input shaped as prefix, obfuscated
14-byte header, and at-least-8-byte body. -/
theorem deobfs_append (ks : List Nat → Nat → Nat) (c? : Option AEAD) (rl : Bool)
    (pre hdr region : List Nat)
    (hpre : pre.length = rlLenOf rl) (hh : hdr.length = HEADER_LEN) (hr : 8 ≤ region.length) :
    deobfs ks c? rl
        (pre ++ xorKS (ks (region.drop (region.length - 8))) 0 hdr ++ region) =
      (if region.length < hdr.getD 13 0 then Except.error DeobfsError.badExtraLen
       else
        match c? with
        | none =>
          if hdr.getD 13 0 = 0 then
            Except.ok ⟨u32 hdr, u64 (hdr.drop 4), hdr.getD 12 0, region⟩
          else
            Except.ok ⟨u32 hdr, u64 (hdr.drop 4), hdr.getD 12 0,
              region.take (region.length - hdr.getD 13 0)⟩
        | some c =>
          match c.Open (hdr.take 12) region with
          | none => Except.error DeobfsError.openErr
          | some pt =>
            Except.ok ⟨u32 hdr, u64 (hdr.drop 4), hdr.getD 12 0,
              (pt ++ region.drop pt.length).take (region.length - hdr.getD 13 0)⟩) := by
  have hX : (xorKS (ks (region.drop (region.length - 8))) 0 hdr).length = HEADER_LEN := by
    rw [xorKS_length, hh]
  set X := xorKS (ks (region.drop (region.length - 8))) 0 hdr with hXdef
  have hlen : (pre ++ (X ++ region)).length = rlLenOf rl + HEADER_LEN + region.length := by
    simp only [List.length_append, hpre, hX]
    omega
  have hnot : ¬ (pre ++ (X ++ region)).length < rlLenOf rl + HEADER_LEN + 8 := by
    rw [hlen]; omega
  have hpeel : (pre ++ (X ++ region)).drop (rlLenOf rl) = X ++ region :=
    List.drop_left' hpre
  have hnonce : (X ++ region).drop ((X ++ region).length - 8) =
      region.drop (region.length - 8) := by
    have h1 : (X ++ region).length - 8 = X.length + (region.length - 8) := by
      simp only [List.length_append, hX, HEADER_LEN]
      omega
    rw [h1, List.drop_append]
  have htake : (X ++ region).take HEADER_LEN = X := List.take_left' hX
  have hdropX : (X ++ region).drop HEADER_LEN = region := List.drop_left' hX
  have hinv : xorKS (ks (region.drop (region.length - 8))) 0 X = hdr := by
    rw [hXdef]
    exact xorKS_xorKS _ _ _
  rw [List.append_assoc]
  simp only [deobfs, if_neg hnot, hpeel, hnonce, htake, hinv, hdropX]

/-- `deobfs_append` specialized to the plain method. -/
theorem deobfs_append_plain (ks : List Nat → Nat → Nat) (rl : Bool)
    (pre hdr region : List Nat)
    (hpre : pre.length = rlLenOf rl) (hh : hdr.length = HEADER_LEN) (hr : 8 ≤ region.length) :
    deobfs ks none rl
        (pre ++ xorKS (ks (region.drop (region.length - 8))) 0 hdr ++ region) =
      (if region.length < hdr.getD 13 0 then Except.error DeobfsError.badExtraLen
       else if hdr.getD 13 0 = 0 then
         Except.ok ⟨u32 hdr, u64 (hdr.drop 4), hdr.getD 12 0, region⟩
       else
         Except.ok ⟨u32 hdr, u64 (hdr.drop 4), hdr.getD 12 0,
           region.take (region.length - hdr.getD 13 0)⟩) := by
  rw [deobfs_append ks none rl pre hdr region hpre hh hr]

/-- `deobfs_append` specialized to an AEAD method. -/
theorem deobfs_append_aead (ks : List Nat → Nat → Nat) (c : AEAD) (rl : Bool)
    (pre hdr region : List Nat)
    (hpre : pre.length = rlLenOf rl) (hh : hdr.length = HEADER_LEN) (hr : 8 ≤ region.length) :
    deobfs ks (some c) rl
        (pre ++ xorKS (ks (region.drop (region.length - 8))) 0 hdr ++ region) =
      (if region.length < hdr.getD 13 0 then Except.error DeobfsError.badExtraLen
       else
        match c.Open (hdr.take 12) region with
        | none => Except.error DeobfsError.openErr
        | some pt =>
          Except.ok ⟨u32 hdr, u64 (hdr.drop 4), hdr.getD 12 0,
            (pt ++ region.drop pt.length).take (region.length - hdr.getD 13 0)⟩) := by
  rw [deobfs_append ks (some c) rl pre hdr region hpre hh hr]

/-- Decoding the wire message produced by encoding recovers the frame
exactly, for the plain method and for any law-abiding AEAD with overhead
in `[8, 256)`. -/
theorem roundtrip_core (ks : List Nat → Nat → Nat) (c? : Option AEAD) (rl : Bool)
    (rnd : Nat → Nat) (f : Frame)
    (hsid : f.StreamID < 2 ^ 32) (hseq : f.Seq < 2 ^ 64)
    (hc : ∀ c, c? = some c → 8 ≤ c.Overhead ∧ c.Overhead < 256) :
    deobfs ks c? rl (wireOf ks c? rl rnd f) = Except.ok f := by
  have hr := encRegion_length_ge c? rnd f hc
  have hrlen := encRegion_length c? rnd f
  have hwire : wireOf ks c? rl rnd f =
      recordLayerOf rl (encRegion c? rnd f).length ++
        xorKS (ks ((encRegion c? rnd f).drop ((encRegion c? rnd f).length - 8))) 0
          (encHeader c? f) ++
        encRegion c? rnd f := rfl
  have hcond : ¬ (encRegion c? rnd f).length < extraLenOf c? f.Payload.length := by
    rw [hrlen]; omega
  cases c? with
  | none =>
    rw [hwire, deobfs_append_plain ks rl (recordLayerOf rl (encRegion none rnd f).length)
      (encHeader none f) (encRegion none rnd f) (recordLayerOf_length rl _)
      (encHeader_length none f) hr, encHeader_getD_13, if_neg hcond]
    rw [u32_encHeader none f hsid, u64_encHeader none f hseq, encHeader_getD_12]
    by_cases he : extraLenOf none f.Payload.length = 0
    · rw [if_pos he]
      have : encRegion none rnd f = f.Payload := by
        simp [encRegion, he]
      rw [this]
    · rw [if_neg he]
      have htake : (encRegion none rnd f).take
          ((encRegion none rnd f).length - extraLenOf none f.Payload.length) = f.Payload := by
        rw [hrlen]
        have h1 : f.Payload.length + extraLenOf none f.Payload.length -
            extraLenOf none f.Payload.length = f.Payload.length := by omega
        rw [h1]
        simp only [encRegion]
        exact List.take_left' rfl
      rw [htake]
  | some c =>
    obtain ⟨h8, h256⟩ := hc c rfl
    have hext : extraLenOf (some c) f.Payload.length = c.Overhead := by
      simp [extraLenOf, Nat.mod_eq_of_lt h256]
    rw [hwire, deobfs_append_aead ks c rl (recordLayerOf rl (encRegion (some c) rnd f).length)
      (encHeader (some c) f) (encRegion (some c) rnd f) (recordLayerOf_length rl _)
      (encHeader_length (some c) f) hr, encHeader_getD_13, if_neg hcond]
    rw [u32_encHeader (some c) f hsid, u64_encHeader (some c) f hseq, encHeader_getD_12,
      encHeader_take_12, encRegion_seal c rnd f h256, c.open_seal]
    simp only [hext, c.seal_length]
    have h1 : f.Payload.length + c.Overhead - c.Overhead = f.Payload.length := by omega
    rw [h1]
    have htake : (f.Payload ++ (c.Seal (putU32 f.StreamID ++ putU64 f.Seq) f.Payload).drop
        f.Payload.length).take f.Payload.length = f.Payload := List.take_left' rfl
    rw [htake]

/-- C1: Round-trip: for every frame F (any stream_id, seq, closing, payload)
and each of the three method identifiers (plain is `none`; the two AEAD
methods are any `AEAD` obeying the `cipher.AEAD` contract with overhead in
`[8, 256)`, which covers AES-GCM and ChaCha20-Poly1305 with overhead 16),
with and without the fake record prefix, decoding the bytes produced by
encoding F into a sufficiently large buffer returns a frame equal to F in
payload, stream_id, seq and closing. -/
theorem C1_roundtrip (ks : List Nat → Nat → Nat) (c? : Option AEAD) (rl : Bool)
    (rnd : Nat → Nat) (f : Frame) (buf : List Nat)
    (hsid : f.StreamID < 2 ^ 32) (hseq : f.Seq < 2 ^ 64)
    (hc : ∀ c, c? = some c → 8 ≤ c.Overhead ∧ c.Overhead < 256)
    (hbuf : usefulLenOf c? rl f.Payload.length ≤ buf.length) :
    (obfs ks c? rl rnd f buf).1 = Except.ok (usefulLenOf c? rl f.Payload.length) ∧
    deobfs ks c? rl ((obfs ks c? rl rnd f buf).2.take (usefulLenOf c? rl f.Payload.length)) =
      Except.ok f := by
  constructor
  · rw [obfs_spec ks c? rl rnd f buf hbuf]
  · rw [obfs_wire ks c? rl rnd f buf hbuf]
    exact roundtrip_core ks c? rl rnd f hsid hseq hc

/-- Witness for C1 at a concrete frame, cipher, and buffer. -/
theorem C1_roundtrip_witness :
    (obfs ks0 (some toy) true rnd0 ⟨1, 2, 3, [5, 6, 7, 8]⟩ (List.replicate 40 0)).1 =
      Except.ok 39 ∧
    deobfs ks0 (some toy) true
        ((obfs ks0 (some toy) true rnd0 ⟨1, 2, 3, [5, 6, 7, 8]⟩
          (List.replicate 40 0)).2.take 39) =
      Except.ok ⟨1, 2, 3, [5, 6, 7, 8]⟩ :=
  C1_roundtrip ks0 (some toy) true rnd0 ⟨1, 2, 3, [5, 6, 7, 8]⟩ (List.replicate 40 0)
    (by decide) (by decide)
    (by intro c h; cases h; exact ⟨by decide, by decide⟩)
    (by decide)

/-- C6: Encode length contract: `useful_len` is
`prefix_len + 14 + len(payload) + extra_len`; a buffer shorter than
`useful_len` yields the capacity error with the buffer unchanged (nothing
written); otherwise the returned length is exactly `useful_len`. -/
theorem C6_encode_length (ks : List Nat → Nat → Nat) (c? : Option AEAD) (rl : Bool)
    (rnd : Nat → Nat) (f : Frame) (buf : List Nat) :
    usefulLenOf c? rl f.Payload.length =
      rlLenOf rl + 14 + f.Payload.length + extraLenOf c? f.Payload.length ∧
    (buf.length < usefulLenOf c? rl f.Payload.length →
      obfs ks c? rl rnd f buf = (Except.error ObfsError.bufferTooSmall, buf)) ∧
    (usefulLenOf c? rl f.Payload.length ≤ buf.length →
      (obfs ks c? rl rnd f buf).1 = Except.ok (usefulLenOf c? rl f.Payload.length)) := by
  refine ⟨rfl, ?_, ?_⟩
  · intro h
    have h' : buf.length < rlLenOf rl + HEADER_LEN + f.Payload.length +
        extraLenOf c? f.Payload.length := by
      simpa [usefulLenOf] using h
    simp only [obfs, if_pos h']
  · intro h
    rw [obfs_spec ks c? rl rnd f buf h]

/-- Witness for C6: a non-empty frame into a zero-length buffer errors with
the buffer untouched, and a just-big-enough buffer succeeds with the exact
length. -/
theorem C6_encode_length_witness :
    obfs ks0 none false rnd0 f0 [] = (Except.error ObfsError.bufferTooSmall, []) ∧
    (obfs ks0 none false rnd0 f0 (List.replicate 22 0)).1 = Except.ok 22 :=
  ⟨(C6_encode_length ks0 none false rnd0 f0 []).2.1 (by decide),
   (C6_encode_length ks0 none false rnd0 f0 (List.replicate 22 0)).2.2 (by decide)⟩

/-- C7: extra_len computation: plain method gives `8 - len` for lengths
0 through 7 and 0 for lengths at least 8; an AEAD method gives the
cipher's overhead; and the decoded payload length always equals the
original payload length. -/
theorem C7_extraLen :
    (∀ n, n < 8 → extraLenOf none n = 8 - n) ∧
    (∀ n, 8 ≤ n → extraLenOf none n = 0) ∧
    (∀ c : AEAD, c.Overhead < 256 → ∀ n, extraLenOf (some c) n = c.Overhead) ∧
    (∀ (ks : List Nat → Nat → Nat) (c? : Option AEAD) (rl : Bool) (rnd : Nat → Nat) (f : Frame),
      f.StreamID < 2 ^ 32 → f.Seq < 2 ^ 64 →
      (∀ c, c? = some c → 8 ≤ c.Overhead ∧ c.Overhead < 256) →
      ∃ g, deobfs ks c? rl (wireOf ks c? rl rnd f) = Except.ok g ∧
        g.Payload.length = f.Payload.length) := by
  refine ⟨?_, ?_, ?_, ?_⟩
  · intro n h
    simp [extraLenOf, h]
  · intro n h
    simp [extraLenOf, Nat.not_lt.mpr h]
  · intro c h n
    simp [extraLenOf, Nat.mod_eq_of_lt h]
  · intro ks c? rl rnd f hsid hseq hc
    exact ⟨f, roundtrip_core ks c? rl rnd f hsid hseq hc, rfl⟩

/-- Witness for C7 at concrete payload lengths and the concrete cipher. -/
theorem C7_extraLen_witness :
    extraLenOf none 3 = 5 ∧ extraLenOf none 9 = 0 ∧ extraLenOf (some toy) 3 = 16 ∧
    ∃ g, deobfs ks0 (some toy) false (wireOf ks0 (some toy) false rnd0 f0) = Except.ok g ∧
      g.Payload.length = f0.Payload.length :=
  ⟨C7_extraLen.1 3 (by decide), C7_extraLen.2.1 9 (by decide),
   C7_extraLen.2.2.1 toy (by decide) 3,
   C7_extraLen.2.2.2 ks0 (some toy) false rnd0 f0 (by decide) (by decide)
     (by intro c h; cases h; exact ⟨by decide, by decide⟩)⟩

/-- C8: Malformed-input validation: decode is a total function returning a
frame or an error; inputs shorter than `prefix_len + 22` are rejected with
the length error; inputs whose de-obfuscated extra_len exceeds the
available post-header bytes are rejected with the extra-length error. -/
theorem C8_malformed (ks : List Nat → Nat → Nat) (c? : Option AEAD) (rl : Bool)
    (inp : List Nat) :
    ((∃ e, deobfs ks c? rl inp = Except.error e) ∨ (∃ g, deobfs ks c? rl inp = Except.ok g)) ∧
    (inp.length < rlLenOf rl + 22 → deobfs ks c? rl inp = Except.error DeobfsError.tooShort) ∧
    (rlLenOf rl + 22 ≤ inp.length →
      inp.length - rlLenOf rl - HEADER_LEN < deobfsExtraLen ks rl inp →
      deobfs ks c? rl inp = Except.error DeobfsError.badExtraLen) := by
  refine ⟨?_, ?_, ?_⟩
  · cases hd : deobfs ks c? rl inp with
    | error e => exact Or.inl ⟨e, rfl⟩
    | ok g => exact Or.inr ⟨g, rfl⟩
  · intro h
    have h' : inp.length < rlLenOf rl + HEADER_LEN + 8 := by
      simpa [HEADER_LEN] using h
    simp only [deobfs, if_pos h']
  · intro h1 h2
    have h1' : ¬ inp.length < rlLenOf rl + HEADER_LEN + 8 := by
      simp only [HEADER_LEN]
      omega
    have h2' : ((inp.drop (rlLenOf rl)).drop HEADER_LEN).length < deobfsExtraLen ks rl inp := by
      simp only [List.length_drop]
      simp only [HEADER_LEN] at h2 ⊢
      omega
    simp only [deobfs, if_neg h1', deobfsExtraLen] at h2' ⊢
    rw [if_pos h2']

/-- Witness for C8: the empty input is rejected as too short, and a
22-byte input whose extra_len byte decodes to 9 (with only 8 available
post-header bytes) is rejected with the extra-length error. -/
theorem C8_malformed_witness :
    deobfs ks0 none false [] = Except.error DeobfsError.tooShort ∧
    deobfs ks0 none false
        [0, 0, 0, 0, 0, 0, 0, 0, 0, 0, 0, 0, 0, 9, 0, 0, 0, 0, 0, 0, 0, 0] =
      Except.error DeobfsError.badExtraLen :=
  ⟨(C8_malformed ks0 none false []).2.1 (by decide),
   (C8_malformed ks0 none false
      [0, 0, 0, 0, 0, 0, 0, 0, 0, 0, 0, 0, 0, 9, 0, 0, 0, 0, 0, 0, 0, 0]).2.2
     (by decide) (by decide)⟩

theorem xor_ne_self (a b : Nat) (hb : b ≠ 0) : a ^^^ b ≠ a := by
  intro h
  apply hb
  have h2 := congrArg (fun x => a ^^^ x) h
  simpa only [← Nat.xor_assoc, Nat.xor_self, Nat.zero_xor] using h2

theorem mkHeader_length (sid seq cl e : Nat) : (mkHeader sid seq cl e).length = HEADER_LEN := by
  simp [mkHeader, putU32, putU64, HEADER_LEN]

theorem u32_mkHeader (sid seq cl e : Nat) (h : sid < 2 ^ 32) :
    u32 (mkHeader sid seq cl e) = sid := by
  simp only [mkHeader, putU32, putU64, List.cons_append, List.nil_append, u32,
    List.getD_cons_zero, List.getD_cons_succ]
  omega

theorem u64_mkHeader (sid seq cl e : Nat) (h : seq < 2 ^ 64) :
    u64 ((mkHeader sid seq cl e).drop 4) = seq := by
  simp only [mkHeader, putU32, putU64, List.cons_append, List.nil_append, List.drop_succ_cons,
    List.drop_zero, u64, List.getD_cons_zero, List.getD_cons_succ]
  omega

theorem mkHeader_getD_12 (sid seq cl e : Nat) : (mkHeader sid seq cl e).getD 12 0 = cl := by
  simp [mkHeader, putU32, putU64]

theorem mkHeader_getD_13 (sid seq cl e : Nat) : (mkHeader sid seq cl e).getD 13 0 = e := by
  simp [mkHeader, putU32, putU64]

theorem mkHeader_take_12 (sid seq cl e : Nat) :
    (mkHeader sid seq cl e).take 12 = putU32 sid ++ putU64 seq := by
  simp [mkHeader, putU32, putU64]

theorem mkHeader_set_12 (sid seq cl e v : Nat) :
    (mkHeader sid seq cl e).set 12 v = mkHeader sid seq v e := by
  simp [mkHeader, putU32, putU64]

theorem encHeader_eq_mkHeader (c? : Option AEAD) (f : Frame) :
    encHeader c? f = mkHeader f.StreamID f.Seq f.Closing (extraLenOf c? f.Payload.length) := rfl

theorem preX_length (ks : List Nat → Nat → Nat) (c? : Option AEAD) (rl : Bool)
    (rnd : Nat → Nat) (f : Frame) :
    (recordLayerOf rl (encRegion c? rnd f).length ++
      xorKS (ks (encNonce c? rnd f)) 0 (encHeader c? f)).length =
      rlLenOf rl + HEADER_LEN := by
  simp [recordLayerOf_length, xorKS_length, encHeader_length, HEADER_LEN]

theorem wireOf_getD_header (ks : List Nat → Nat → Nat) (c? : Option AEAD) (rl : Bool)
    (rnd : Nat → Nat) (f : Frame) (i : Nat) (hi : i < 14) :
    (wireOf ks c? rl rnd f).getD (rlLenOf rl + i) 0 =
      (encHeader c? f).getD i 0 ^^^ ks (encNonce c? rnd f) i := by
  unfold wireOf
  rw [List.getD_append _ _ _ _
    (by rw [preX_length ks c? rl rnd f]; simp only [HEADER_LEN]; omega)]
  rw [List.getD_append_right _ _ _ _ (by rw [recordLayerOf_length]; omega)]
  have h1 : rlLenOf rl + i - (recordLayerOf rl (encRegion c? rnd f).length).length = i := by
    rw [recordLayerOf_length]; omega
  rw [h1, xorKS_getD _ _ _ _ (by rw [encHeader_length]; omega)]
  simp

theorem wireOf_set_header (ks : List Nat → Nat → Nat) (c? : Option AEAD) (rl : Bool)
    (rnd : Nat → Nat) (f : Frame) (i v : Nat) (hi : i < 14) :
    (wireOf ks c? rl rnd f).set (rlLenOf rl + i) v =
      recordLayerOf rl (encRegion c? rnd f).length ++
        (xorKS (ks (encNonce c? rnd f)) 0 (encHeader c? f)).set i v ++
        encRegion c? rnd f := by
  unfold wireOf
  rw [List.set_append_left _ _
    (by rw [preX_length ks c? rl rnd f]; simp only [HEADER_LEN]; omega)]
  rw [List.set_append_right _ _ (by rw [recordLayerOf_length]; omega)]
  have h1 : rlLenOf rl + i - (recordLayerOf rl (encRegion c? rnd f).length).length = i := by
    rw [recordLayerOf_length]; omega
  rw [h1]

theorem wireOf_getD_region (ks : List Nat → Nat → Nat) (c? : Option AEAD) (rl : Bool)
    (rnd : Nat → Nat) (f : Frame) (j : Nat) :
    (wireOf ks c? rl rnd f).getD (rlLenOf rl + HEADER_LEN + j) 0 =
      (encRegion c? rnd f).getD j 0 := by
  unfold wireOf
  rw [List.getD_append_right _ _ _ _ (by rw [preX_length ks c? rl rnd f]; omega)]
  rw [preX_length ks c? rl rnd f]
  have h1 : rlLenOf rl + HEADER_LEN + j - (rlLenOf rl + HEADER_LEN) = j := by omega
  rw [h1]

theorem wireOf_set_region (ks : List Nat → Nat → Nat) (c? : Option AEAD) (rl : Bool)
    (rnd : Nat → Nat) (f : Frame) (j v : Nat) :
    (wireOf ks c? rl rnd f).set (rlLenOf rl + HEADER_LEN + j) v =
      recordLayerOf rl (encRegion c? rnd f).length ++
        xorKS (ks (encNonce c? rnd f)) 0 (encHeader c? f) ++
        (encRegion c? rnd f).set j v := by
  unfold wireOf
  rw [List.set_append_right _ _ (by rw [preX_length ks c? rl rnd f]; omega)]
  rw [preX_length ks c? rl rnd f]
  have h1 : rlLenOf rl + HEADER_LEN + j - (rlLenOf rl + HEADER_LEN) = j := by omega
  rw [h1]

theorem wireOf_take_rl (ks : List Nat → Nat → Nat) (c? : Option AEAD) (rl : Bool)
    (rnd : Nat → Nat) (f : Frame) :
    (wireOf ks c? rl rnd f).take (rlLenOf rl) =
      recordLayerOf rl (encRegion c? rnd f).length := by
  unfold wireOf
  rw [List.append_assoc]
  exact List.take_left' (recordLayerOf_length rl _)

theorem wireOf_drop_header (ks : List Nat → Nat → Nat) (c? : Option AEAD) (rl : Bool)
    (rnd : Nat → Nat) (f : Frame) :
    (wireOf ks c? rl rnd f).drop (rlLenOf rl + HEADER_LEN) = encRegion c? rnd f := by
  unfold wireOf
  exact List.drop_left' (preX_length ks c? rl rnd f)

/-- C2 (exhibiting the construction bug): with the AES-GCM method and a
16-byte session key, `GenerateObfs` returns a fully constructed obfuscator
and a nil error: the key-size error assigned by the length check is never
returned and is overwritten by the successful `aes.NewCipher` /
`cipher.NewGCM` calls. -/
theorem C2_keysize_swallowed (mkGCM mkCC : List Nat → AEAD) :
    (GenerateObfs mkGCM mkCC E_METHOD_AES_GCM (List.replicate 16 0) false).2 = none ∧
    (GenerateObfs mkGCM mkCC E_METHOD_AES_GCM (List.replicate 16 0) false).1 =
      some ⟨some (mkGCM (List.replicate 16 0)),
        (List.replicate 16 0 ++ List.replicate 32 0).take 32, false, List.replicate 16 0⟩ := by
  constructor <;>
    simp [GenerateObfs, E_METHOD_AES_GCM, E_METHOD_PLAIN, E_METHOD_CHACHA20_POLY1305]

/-- C10: decode does not mutate its input: with the memory-explicit
decoder, the caller's buffer after the call equals the original input on
every path, and the returned value agrees with `deobfs`. -/
theorem C10_no_input_mutation (ks : List Nat → Nat → Nat) (c? : Option AEAD) (rl : Bool)
    (inp : List Nat) :
    (deobfsMem ks c? rl inp).2 = inp ∧
    (deobfsMem ks c? rl inp).1 = deobfs ks c? rl inp := by
  by_cases h : inp.length < rlLenOf rl + HEADER_LEN + 8
  · exact ⟨by simp only [deobfsMem, if_pos h], by simp only [deobfsMem, deobfs, if_pos h]⟩
  · have hlen14 : ((inp.drop (rlLenOf rl)).take HEADER_LEN).length = HEADER_LEN := by
      simp only [List.length_take, List.length_drop, HEADER_LEN] at h ⊢
      omega
    simp only [deobfsMem, deobfs, if_neg h]
    set P := inp.drop (rlLenOf rl) with hP
    set X := xorKS (ks (P.drop (P.length - 8))) 0 (P.take HEADER_LEN) with hXdef
    have hxl : X.length = HEADER_LEN := by rw [hXdef, xorKS_length, hlen14]
    have htakeX : ∀ Z : List Nat, (X ++ Z).take HEADER_LEN = X := fun Z => List.take_left' hxl
    have hdropX : ∀ Z : List Nat, (X ++ Z).drop HEADER_LEN = Z := fun Z => List.drop_left' hxl
    simp only [htakeX, hdropX]
    by_cases h2 : (P.drop HEADER_LEN).length < X.getD 13 0
    · simp only [if_pos h2]
      exact ⟨trivial, trivial⟩
    · simp only [if_neg h2]
      cases c? with
      | none =>
        by_cases h3 : X.getD 13 0 = 0
        · simp only [if_pos h3]
          exact ⟨trivial, trivial⟩
        · simp only [if_neg h3]
          exact ⟨trivial, trivial⟩
      | some c =>
        cases hopen : c.Open (X.take 12) (P.drop HEADER_LEN) with
        | none =>
          simp only [hopen]
          exact ⟨trivial, trivial⟩
        | some pt =>
          simp only [hopen, hdropX]
          exact ⟨trivial, trivial⟩

/-- C5: the extra_len header byte is not covered by any authentication:
here is a valid AEAD-encoded message (the encoding of `f0`, whose header
byte 13 is 16 and is unchanged by the all-zero keystream) such that
raising only that byte to 17 still decodes successfully, but to a frame
whose payload is one byte shorter than the encoded payload. -/
theorem C5_extraLen_unauthenticated :
    deobfs ks0 (some toy) false
        (((obfs ks0 (some toy) false rnd0 f0 (List.replicate 34 0)).2.take 34).set 13 17) =
      Except.ok ⟨1, 2, 0, [1, 2, 3]⟩ ∧
    (⟨1, 2, 0, [1, 2, 3]⟩ : Frame).Payload.length ≠ f0.Payload.length := by
  constructor
  · decide
  · decide

/-- C3 counterexample: the wire message that differs from the encoding of
`f0` only in the obfuscated header byte carrying the closing field (byte
12, flipped from 0 to 1; the all-zero keystream makes the obfuscation the
identity) is NOT rejected: decode succeeds and returns the frame with the
flipped closing value. -/
theorem C3_closing_flip_accepted :
    deobfs ks0 (some toy) false
        (((obfs ks0 (some toy) false rnd0 f0 (List.replicate 34 0)).2.take 34).set 12 1) =
      Except.ok ⟨1, 2, 1, [1, 2, 3, 4]⟩ := by
  decide

theorem getD_lt_256 (l : List Nat) (h : ∀ b ∈ l, b < 256) (j : Nat) : l.getD j 0 < 256 := by
  by_cases hj : j < l.length
  · rw [List.getD_eq_getElem _ _ hj]
    exact h _ (List.getElem_mem hj)
  · rw [List.getD_eq_default _ _ (Nat.le_of_not_lt hj)]
    omega

/-- Overwriting a single position with a different value yields a list at
Hamming distance exactly one. -/
theorem diffAtOne_set (l : List Nat) (j v : Nat) (hj : j < l.length)
    (hv : v ≠ l.getD j 0) : DiffAtOne (l.set j v) l := by
  have hjget : l[j]? = some (l.getD j 0) := by
    rw [List.getElem?_eq_getElem hj, List.getD_eq_getElem _ _ hj]
  refine ⟨List.length_set l j v, j, by simpa using hj, ?_, ?_⟩
  · rw [List.getElem?_set_self (by simpa using hj), hjget]
    intro hcon
    exact hv (Option.some.inj hcon)
  · intro k hk
    exact List.getElem?_set_ne (Ne.symm hk)

theorem tagOf_length (n pt : List Nat) : (tagOf n pt).length = 16 := by
  simp [tagOf]

theorem tagOf_eq (n pt : List Nat) (hn : n.length = 12) :
    tagOf n pt = n ++ [pt.sum % 256, 0, 0, 0] := by
  simp only [tagOf]
  rw [List.take_append_of_le_length (by omega), List.take_of_length_le (by omega)]

theorem toySeal_length (n pt : List Nat) : (toySeal n pt).length = pt.length + 16 := by
  simp [toySeal, tagOf]

theorem toySeal_take (n pt : List Nat) : (toySeal n pt).take pt.length = pt :=
  List.take_left' rfl

theorem toySeal_drop (n pt : List Nat) : (toySeal n pt).drop pt.length = tagOf n pt :=
  List.drop_left' rfl

/-- The concrete cipher rejects any ciphertext sealed under a different
12-byte nonce: its tag embeds the nonce. -/
theorem toy_cross (n n' pt : List Nat) (hn : n.length = 12) (hn' : n'.length = 12)
    (hne : n ≠ n') : toy.Open n' (toy.Seal n pt) = none := by
  show toyOpen n' (toySeal n pt) = none
  unfold toyOpen
  refine if_neg ?_
  rintro ⟨h16, heq⟩
  rw [toySeal_length, Nat.add_sub_cancel, toySeal_drop, toySeal_take] at heq
  rw [tagOf_eq n pt hn, tagOf_eq n' pt hn'] at heq
  exact hne (List.append_inj_left heq (by rw [hn, hn']))

/-- The concrete cipher rejects any ciphertext at Hamming distance one from
an honest seal of byte-valued data: a body change alters the checksum
byte, a tag change breaks the tag comparison. -/
theorem toy_dist (n pt ct : List Nat) (hpt : ∀ b ∈ pt, b < 256) (hct : ∀ b ∈ ct, b < 256)
    (hd : DiffAtOne ct (toySeal n pt)) : toy.Open n ct = none := by
  obtain ⟨hlen, i, hi, hneq, hsame⟩ := hd
  have hctlen : ct.length = pt.length + 16 := by rw [hlen, toySeal_length]
  show toyOpen n ct = none
  unfold toyOpen
  refine if_neg ?_
  rintro ⟨h16, heq⟩
  rw [hctlen, Nat.add_sub_cancel] at heq
  by_cases hcase : i < pt.length
  · -- the single difference is in the body; the stored tag is the honest
    -- one, but the checksum of the modified body differs
    have htail : ct.drop pt.length = tagOf n pt := by
      have h1 : ct.drop pt.length = (toySeal n pt).drop pt.length := by
        apply List.ext_getElem?
        intro m
        rw [List.getElem?_drop, List.getElem?_drop]
        exact hsame (pt.length + m) (by omega)
      rw [h1, toySeal_drop]
    rw [htail] at heq
    have hbody : ct.take pt.length = pt.set i (ct.getD i 0) := by
      apply List.ext_getElem?
      intro m
      rw [List.getElem?_take]
      by_cases hm : m < pt.length
      · rw [if_pos hm]
        by_cases hmi : m = i
        · subst hmi
          rw [List.getElem?_set_self hm, List.getElem?_eq_getElem (by omega),
            List.getD_eq_getElem _ _ (by omega)]
        · rw [List.getElem?_set_ne (Ne.symm hmi), hsame m hmi]
          show (pt ++ tagOf n pt)[m]? = pt[m]?
          rw [List.getElem?_append_left (by simpa using hm)]
      · rw [if_neg hm, Eq.comm, List.getElem?_eq_none_iff]
        simp only [List.length_set]
        omega
    rw [hbody] at heq
    have hsumeq : pt.sum % 256 = (pt.set i (ct.getD i 0)).sum % 256 := by
      have h12 := congrArg (fun l => l.getD 12 0) heq
      simp only [tagOf, List.getD_append_right _ _ _ _
        (by simp : ((n ++ List.replicate 12 0).take 12).length ≤ 12)] at h12
      simpa using h12
    have hvne : ct.getD i 0 ≠ pt.getD i 0 := by
      intro hcon
      apply hneq
      have h1 : ct[i]? = some (ct.getD i 0) := by
        rw [List.getElem?_eq_getElem hi, List.getD_eq_getElem _ _ hi]
      have h2 : (toySeal n pt)[i]? = some (pt.getD i 0) := by
        show (pt ++ tagOf n pt)[i]? = _
        rw [List.getElem?_append_left (by simpa using hcase),
          List.getElem?_eq_getElem (by simpa using hcase), List.getD_eq_getElem _ _ hcase]
      rw [h1, h2, hcon]
    have hvlt : ct.getD i 0 < 256 := getD_lt_256 ct hct i
    have hplt : pt.getD i 0 < 256 := getD_lt_256 pt hpt i
    have hdecomp : pt = pt.take i ++ pt.getD i 0 :: pt.drop (i + 1) := by
      conv_lhs => rw [← List.take_append_drop i pt]
      rw [List.drop_eq_getElem_cons hcase, List.getD_eq_getElem _ _ hcase]
    have hset : pt.set i (ct.getD i 0) = pt.take i ++ ct.getD i 0 :: pt.drop (i + 1) := by
      rw [List.set_eq_take_append_cons_drop, if_pos hcase]
    rw [hset] at hsumeq
    conv_lhs at hsumeq => rw [hdecomp]
    simp only [List.sum_append, List.sum_cons] at hsumeq
    omega
  · -- the single difference is in the tag region; the stored tag cannot
    -- equal the honest tag of the unchanged body
    have hbody : ct.take pt.length = pt := by
      apply List.ext_getElem?
      intro m
      rw [List.getElem?_take]
      by_cases hm : m < pt.length
      · rw [if_pos hm, hsame m (by omega)]
        show (pt ++ tagOf n pt)[m]? = pt[m]?
        rw [List.getElem?_append_left (by simpa using hm)]
      · rw [if_neg hm, Eq.comm, List.getElem?_eq_none_iff]
        omega
    rw [hbody] at heq
    apply hneq
    have h2 := congrArg (fun l => l[i - pt.length]?) heq
    simp only at h2
    rw [List.getElem?_drop] at h2
    have h3 : pt.length + (i - pt.length) = i := by omega
    rw [h3] at h2
    rw [h2, ← toySeal_drop n pt, List.getElem?_drop, h3]

/-- Seals of the concrete cipher are byte-valued when nonce and plaintext
are. -/
theorem toy_sealBytes (n pt : List Nat) (hn : ∀ b ∈ n, b < 256) (hpt : ∀ b ∈ pt, b < 256) :
    ∀ b ∈ toy.Seal n pt, b < 256 := by
  intro b hb
  show b < 256
  rcases List.mem_append.mp hb with hb1 | hb2
  · exact hpt b hb1
  · simp only [tagOf, List.mem_append, List.mem_cons, List.not_mem_nil, or_false] at hb2
    rcases hb2 with hb3 | hb4
    · rcases List.mem_append.mp (List.take_subset 12 _ hb3) with hb5 | hb6
      · exact hn b hb5
      · rw [List.eq_of_mem_replicate hb6]
        omega
    · rcases hb4 with rfl | rfl | rfl | rfl
      · exact Nat.mod_lt _ (by omega)
      all_goals omega

/-- Decoding an honestly encoded AEAD message whose header has been
replaced (consistently re-obfuscated) by one with the given stream id,
seq and closing: the cipher is opened at the attacker's 12-byte nonce. -/
theorem deobfs_altered_header (ks : List Nat → Nat → Nat) (c : AEAD) (rl : Bool)
    (rnd : Nat → Nat) (f : Frame) (sid' seq' cl' : Nat)
    (hsid' : sid' < 2 ^ 32) (hseq' : seq' < 2 ^ 64)
    (h8 : 8 ≤ c.Overhead) (h256 : c.Overhead < 256) :
    deobfs ks (some c) rl
        (recordLayerOf rl (encRegion (some c) rnd f).length ++
          xorKS (ks (encNonce (some c) rnd f)) 0
            (mkHeader sid' seq' cl' (extraLenOf (some c) f.Payload.length)) ++
          encRegion (some c) rnd f) =
      (match c.Open (putU32 sid' ++ putU64 seq')
          (c.Seal (putU32 f.StreamID ++ putU64 f.Seq) f.Payload) with
      | none => Except.error DeobfsError.openErr
      | some pt =>
        Except.ok ⟨sid', seq', cl',
          (pt ++ (c.Seal (putU32 f.StreamID ++ putU64 f.Seq) f.Payload).drop pt.length).take
            f.Payload.length⟩) := by
  have hr : 8 ≤ (encRegion (some c) rnd f).length :=
    encRegion_length_ge (some c) rnd f (fun c' h => by cases h; exact ⟨h8, h256⟩)
  have hnonce : encNonce (some c) rnd f =
      (encRegion (some c) rnd f).drop ((encRegion (some c) rnd f).length - 8) := rfl
  rw [hnonce, deobfs_append_aead ks c rl _ _ _ (recordLayerOf_length rl _)
    (mkHeader_length _ _ _ _) hr]
  have hext : extraLenOf (some c) f.Payload.length = c.Overhead := by
    simp [extraLenOf, Nat.mod_eq_of_lt h256]
  rw [mkHeader_getD_13]
  have hcond : ¬ (encRegion (some c) rnd f).length < extraLenOf (some c) f.Payload.length := by
    rw [encRegion_length]; omega
  rw [if_neg hcond, mkHeader_take_12]
  simp only [encRegion_seal c rnd f h256, u32_mkHeader sid' seq' cl' _ hsid',
    u64_mkHeader sid' seq' cl' _ hseq', mkHeader_getD_12, hext, c.seal_length,
    Nat.add_sub_cancel]

/-- C3 (amended): tampering with the stream-close signal is NOT detected:
for every frame encoded under an AEAD method, the wire message that
differs from the encoding only in the (obfuscated) header byte carrying
the closing field (XORed with any nonzero byte delta) is accepted by
decode, which returns the frame with the flipped closing value — only
stream_id, seq (the AEAD nonce) and the payload region are
authenticated. -/
theorem C3_closing_not_authenticated (ks : List Nat → Nat → Nat) (c : AEAD) (rl : Bool)
    (rnd : Nat → Nat) (f : Frame) (buf : List Nat) (d : Nat)
    (hsid : f.StreamID < 2 ^ 32) (hseq : f.Seq < 2 ^ 64)
    (h8 : 8 ≤ c.Overhead) (h256 : c.Overhead < 256) (hd : d ≠ 0)
    (hbuf : usefulLenOf (some c) rl f.Payload.length ≤ buf.length) :
    deobfs ks (some c) rl
        (((obfs ks (some c) rl rnd f buf).2.take (usefulLenOf (some c) rl f.Payload.length)).set
          (rlLenOf rl + 12)
          ((((obfs ks (some c) rl rnd f buf).2.take
              (usefulLenOf (some c) rl f.Payload.length)).getD (rlLenOf rl + 12) 0) ^^^ d)) =
      Except.ok ⟨f.StreamID, f.Seq, f.Closing ^^^ d, f.Payload⟩ ∧
    f.Closing ^^^ d ≠ f.Closing := by
  refine ⟨?_, xor_ne_self f.Closing d hd⟩
  rw [obfs_wire ks (some c) rl rnd f buf hbuf]
  rw [wireOf_getD_header ks (some c) rl rnd f 12 (by omega),
    wireOf_set_header ks (some c) rl rnd f 12 _ (by omega), encHeader_getD_12]
  have hsetX : (xorKS (ks (encNonce (some c) rnd f)) 0 (encHeader (some c) f)).set 12
      ((f.Closing ^^^ ks (encNonce (some c) rnd f) 12) ^^^ d) =
      xorKS (ks (encNonce (some c) rnd f)) 0
        (mkHeader f.StreamID f.Seq (f.Closing ^^^ d)
          (extraLenOf (some c) f.Payload.length)) := by
    rw [← mkHeader_set_12 f.StreamID f.Seq f.Closing (extraLenOf (some c) f.Payload.length)
      (f.Closing ^^^ d), ← encHeader_eq_mkHeader, xorKS_set]
    have harith : (f.Closing ^^^ ks (encNonce (some c) rnd f) 12) ^^^ d =
        (f.Closing ^^^ d) ^^^ ks (encNonce (some c) rnd f) (0 + 12) := by
      rw [Nat.zero_add, Nat.xor_assoc, Nat.xor_assoc, Nat.xor_comm d]
    rw [harith]
  rw [hsetX, deobfs_altered_header ks c rl rnd f f.StreamID f.Seq (f.Closing ^^^ d)
    hsid hseq h8 h256]
  simp only [c.open_seal]
  rw [List.take_left' rfl]

/-- Witness for the amended C3 at a concrete cipher and frame. -/
theorem C3_closing_not_authenticated_witness :
    deobfs ks0 (some toy) false
        (((obfs ks0 (some toy) false rnd0 f0 (List.replicate 34 0)).2.take
            (usefulLenOf (some toy) false f0.Payload.length)).set (rlLenOf false + 12)
          ((((obfs ks0 (some toy) false rnd0 f0 (List.replicate 34 0)).2.take
              (usefulLenOf (some toy) false f0.Payload.length)).getD (rlLenOf false + 12) 0) ^^^
            1)) =
      Except.ok ⟨f0.StreamID, f0.Seq, f0.Closing ^^^ 1, f0.Payload⟩ ∧
    f0.Closing ^^^ 1 ≠ f0.Closing :=
  C3_closing_not_authenticated ks0 toy false rnd0 f0 (List.replicate 34 0) 1
    (by decide) (by decide) (by decide) (by decide) (by decide) (by decide)

/-- C4 (amended): for every frame encoded under an AEAD method satisfying
the idealized integrity properties, (a) altering stream_id or seq in the
wire message with the header re-obfuscated consistently causes decode to
fail with the authentication error, and (b) flipping any single bit of
any byte of the post-header payload region other than its final 8 bytes
(the header-obfuscation nonce) causes decode to fail with the
authentication error. -/
theorem C4_nonce_binding_tamper (ks : List Nat → Nat → Nat) (c : AEAD) (rl : Bool)
    (rnd : Nat → Nat) (f : Frame) (buf : List Nat)
    (hsid : f.StreamID < 2 ^ 32) (hseq : f.Seq < 2 ^ 64)
    (h8 : 8 ≤ c.Overhead) (h256 : c.Overhead < 256)
    (hpay : ∀ b ∈ f.Payload, b < 256)
    (hsealb : ∀ nonce pt, (∀ b ∈ nonce, b < 256) → (∀ b ∈ pt, b < 256) →
      ∀ b ∈ c.Seal nonce pt, b < 256)
    (hcross : ∀ nonce nonce' pt, nonce.length = 12 → nonce'.length = 12 → nonce ≠ nonce' →
      c.Open nonce' (c.Seal nonce pt) = none)
    (hdist : ∀ nonce pt ct, (∀ b ∈ pt, b < 256) → (∀ b ∈ ct, b < 256) →
      DiffAtOne ct (c.Seal nonce pt) → c.Open nonce ct = none)
    (hbuf : usefulLenOf (some c) rl f.Payload.length ≤ buf.length) :
    (∀ sid' seq', sid' < 2 ^ 32 → seq' < 2 ^ 64 → (sid', seq') ≠ (f.StreamID, f.Seq) →
      deobfs ks (some c) rl
          (((obfs ks (some c) rl rnd f buf).2.take
              (usefulLenOf (some c) rl f.Payload.length)).take (rlLenOf rl) ++
            xorKS (ks (encNonce (some c) rnd f)) 0
              (mkHeader sid' seq' f.Closing (extraLenOf (some c) f.Payload.length)) ++
            ((obfs ks (some c) rl rnd f buf).2.take
                (usefulLenOf (some c) rl f.Payload.length)).drop (rlLenOf rl + HEADER_LEN)) =
        Except.error DeobfsError.openErr) ∧
    (∀ p k, rlLenOf rl + HEADER_LEN ≤ p →
      p + 8 < usefulLenOf (some c) rl f.Payload.length → k < 8 →
      deobfs ks (some c) rl
          (((obfs ks (some c) rl rnd f buf).2.take
              (usefulLenOf (some c) rl f.Payload.length)).set p
            ((((obfs ks (some c) rl rnd f buf).2.take
                (usefulLenOf (some c) rl f.Payload.length)).getD p 0) ^^^ 2 ^ k)) =
        Except.error DeobfsError.openErr) := by
  have hext : extraLenOf (some c) f.Payload.length = c.Overhead := by
    simp [extraLenOf, Nat.mod_eq_of_lt h256]
  constructor
  · intro sid' seq' hsid' hseq' hne
    rw [obfs_wire ks (some c) rl rnd f buf hbuf, wireOf_take_rl, wireOf_drop_header,
      deobfs_altered_header ks c rl rnd f sid' seq' f.Closing hsid' hseq' h8 h256]
    have hop : c.Open (putU32 sid' ++ putU64 seq')
        (c.Seal (putU32 f.StreamID ++ putU64 f.Seq) f.Payload) = none := by
      apply hcross _ _ _ (by simp [putU32, putU64]) (by simp [putU32, putU64])
      exact Ne.symm (nonce12_inj f.StreamID f.Seq sid' seq' hsid hseq hsid' hseq' hne)
    simp only [hop]
  · intro p k hp hpu hk
    rw [obfs_wire ks (some c) rl rnd f buf hbuf]
    obtain ⟨j, rfl⟩ : ∃ j, p = rlLenOf rl + HEADER_LEN + j :=
      ⟨p - rlLenOf rl - HEADER_LEN, by omega⟩
    rw [wireOf_getD_region ks (some c) rl rnd f j, wireOf_set_region ks (some c) rl rnd f j _]
    have hrlen := encRegion_length (some c) rnd f
    have hjr : j + 8 < (encRegion (some c) rnd f).length := by
      simp only [usefulLenOf] at hpu
      omega
    have hnset : ((encRegion (some c) rnd f).set j
          ((encRegion (some c) rnd f).getD j 0 ^^^ 2 ^ k)).drop
          (((encRegion (some c) rnd f).set j
            ((encRegion (some c) rnd f).getD j 0 ^^^ 2 ^ k)).length - 8) =
        encNonce (some c) rnd f := by
      rw [List.length_set, List.drop_set]
      rw [if_pos (by omega)]
      rfl
    rw [show encNonce (some c) rnd f = ((encRegion (some c) rnd f).set j
          ((encRegion (some c) rnd f).getD j 0 ^^^ 2 ^ k)).drop
          (((encRegion (some c) rnd f).set j
            ((encRegion (some c) rnd f).getD j 0 ^^^ 2 ^ k)).length - 8) from hnset.symm]
    rw [deobfs_append_aead ks c rl _ _ _ (recordLayerOf_length rl _) (encHeader_length _ _)
      (by rw [List.length_set]; omega)]
    rw [encHeader_getD_13, if_neg (by rw [List.length_set]; omega), encHeader_take_12]
    have hnb : ∀ b ∈ putU32 f.StreamID ++ putU64 f.Seq, b < 256 := by
      intro b hb
      rcases List.mem_append.mp hb with hb | hb
      · exact putU32_bytes _ b hb
      · exact putU64_bytes _ b hb
    have hregb : ∀ b ∈ encRegion (some c) rnd f, b < 256 := by
      rw [encRegion_seal c rnd f h256]
      exact hsealb _ _ hnb hpay
    have hvb : (encRegion (some c) rnd f).getD j 0 ^^^ 2 ^ k < 256 := by
      have h1 : (encRegion (some c) rnd f).getD j 0 < 256 := getD_lt_256 _ hregb j
      have h2 : (2 : Nat) ^ k < 2 ^ 8 := Nat.pow_lt_pow_right (by omega) hk
      exact Nat.xor_lt_two_pow h1 h2
    have hctb : ∀ b ∈ (encRegion (some c) rnd f).set j
        ((encRegion (some c) rnd f).getD j 0 ^^^ 2 ^ k), b < 256 := by
      intro b hb
      rcases List.mem_or_eq_of_mem_set hb with hb | rfl
      · exact hregb b hb
      · exact hvb
    have hdiff : DiffAtOne ((encRegion (some c) rnd f).set j
        ((encRegion (some c) rnd f).getD j 0 ^^^ 2 ^ k)) (encRegion (some c) rnd f) :=
      diffAtOne_set _ j _ (by omega)
        (xor_ne_self _ _ (pow_pos (by omega : (0 : Nat) < 2) k).ne')
    have hds : c.Open (putU32 f.StreamID ++ putU64 f.Seq)
        ((encRegion (some c) rnd f).set j
          ((encRegion (some c) rnd f).getD j 0 ^^^ 2 ^ k)) = none := by
      apply hdist _ f.Payload _ hpay hctb
      rw [← encRegion_seal c rnd f h256]
      exact hdiff
    simp only [hds]

/-- Witness for the amended C4 at the concrete cipher and frame: altering
stream_id from 1 to 9 (header re-obfuscated), and flipping bit 0 of the
first payload-region byte, are both rejected with the authentication
error. -/
theorem C4_nonce_binding_tamper_witness :
    deobfs ks0 (some toy) false
        (((obfs ks0 (some toy) false rnd0 f0 (List.replicate 34 0)).2.take
            (usefulLenOf (some toy) false f0.Payload.length)).take (rlLenOf false) ++
          xorKS (ks0 (encNonce (some toy) rnd0 f0)) 0
            (mkHeader 9 2 f0.Closing (extraLenOf (some toy) f0.Payload.length)) ++
          ((obfs ks0 (some toy) false rnd0 f0 (List.replicate 34 0)).2.take
              (usefulLenOf (some toy) false f0.Payload.length)).drop
            (rlLenOf false + HEADER_LEN)) =
      Except.error DeobfsError.openErr ∧
    deobfs ks0 (some toy) false
        (((obfs ks0 (some toy) false rnd0 f0 (List.replicate 34 0)).2.take
            (usefulLenOf (some toy) false f0.Payload.length)).set (rlLenOf false + HEADER_LEN)
          ((((obfs ks0 (some toy) false rnd0 f0 (List.replicate 34 0)).2.take
              (usefulLenOf (some toy) false f0.Payload.length)).getD
            (rlLenOf false + HEADER_LEN) 0) ^^^ 2 ^ 0)) =
      Except.error DeobfsError.openErr := by
  have h := C4_nonce_binding_tamper ks0 toy false rnd0 f0 (List.replicate 34 0)
    (by decide) (by decide) (by decide) (by decide) (by decide)
    (fun n pt hn hpt => toy_sealBytes n pt hn hpt)
    (fun n n' pt hn hn' hne => toy_cross n n' pt hn hn' hne)
    (fun n pt ct hpt hct hd => toy_dist n pt ct hpt hct hd)
    (by decide)
  exact ⟨h.1 9 2 (by decide) (by decide) (by decide),
    h.2 (rlLenOf false + HEADER_LEN) 0 (Nat.le_refl _) (by decide) (by decide)⟩

/-- C4 counterexample: a single-bit flip in the payload region is NOT
always rejected with an authentication error: flipping bit 0 of the last
byte of the encoding of `f0` (a byte inside the 8-byte header-obfuscation
nonce tail) makes the de-obfuscated extra_len byte garbage (here 239),
and decode fails with the extra-length validation error instead of the
authentication error. -/
theorem C4_tail_flip_not_auth_error :
    deobfs ksX (some toy) false
        (((obfs ksX (some toy) false rnd0 f0 (List.replicate 34 0)).2.take 34).set 33
          ((((obfs ksX (some toy) false rnd0 f0 (List.replicate 34 0)).2.take 34).getD 33 0) ^^^
            1)) =
      Except.error DeobfsError.badExtraLen ∧
    (Except.error DeobfsError.badExtraLen : Except DeobfsError Frame) ≠
      Except.error DeobfsError.openErr := by
  constructor
  · decide
  · decide

theorem u16_putU16 (x : Nat) : u16 (putU16 x) = x % 65536 := by
  simp only [u16, putU16, List.getD_cons_zero, List.getD_cons_succ]
  omega

/-- When the fake record layer is enabled and the buffer is large enough,
the first five written bytes are the tag 0x17 0x03 0x03 followed by the
big-endian 16-bit value `(14 + len(payload) + extra_len) mod 65536`. -/
theorem obfs_recordLayer_spec (ks : List Nat → Nat → Nat) (c? : Option AEAD)
    (rnd : Nat → Nat) (f : Frame) (buf : List Nat)
    (hbuf : usefulLenOf c? true f.Payload.length ≤ buf.length) :
    ((obfs ks c? true rnd f buf).2.take (usefulLenOf c? true f.Payload.length)).take 3 =
      [0x17, 0x03, 0x03] ∧
    u16 ((((obfs ks c? true rnd f buf).2.take
        (usefulLenOf c? true f.Payload.length)).drop 3).take 2) =
      (14 + f.Payload.length + extraLenOf c? f.Payload.length) % 65536 := by
  rw [obfs_wire ks c? true rnd f buf hbuf]
  have hpre : recordLayerOf true (encRegion c? rnd f).length =
      [0x17, 0x03, 0x03] ++ putU16 (HEADER_LEN + (encRegion c? rnd f).length) := by
    simp [recordLayerOf]
  have hwire : wireOf ks c? true rnd f =
      ([0x17, 0x03, 0x03] ++ putU16 (HEADER_LEN + (encRegion c? rnd f).length)) ++
        (xorKS (ks (encNonce c? rnd f)) 0 (encHeader c? f) ++ encRegion c? rnd f) := by
    rw [wireOf, hpre, List.append_assoc]
  rw [hwire]
  constructor
  · rw [List.take_append_of_le_length (by simp [putU16])]
    rw [List.take_append_of_le_length (by simp)]
    rfl
  · rw [List.drop_append_of_le_length (by simp [putU16])]
    rw [List.drop_append_of_le_length (by simp)]
    have h3 : ([(0x17 : Nat), 0x03, 0x03].drop 3) = [] := rfl
    rw [h3, List.nil_append]
    rw [List.take_append_of_le_length (by simp [putU16])]
    rw [List.take_of_length_le (by simp [putU16])]
    rw [u16_putU16, encRegion_length]
    simp only [HEADER_LEN]
    omega

/-- C9 (amended): whenever the fake prefix is enabled, encode writes
exactly 5 bytes before the header: the constant tag 0x17 0x03 0x03
followed by a 2-byte big-endian length field whose value equals
`(14 + len(payload) + extra_len) mod 65536` (the Go `uint16` cast
truncates values that do not fit in 16 bits). -/
theorem C9_record_layer_format (ks : List Nat → Nat → Nat) (c? : Option AEAD)
    (rnd : Nat → Nat) (f : Frame) (buf : List Nat)
    (hbuf : usefulLenOf c? true f.Payload.length ≤ buf.length) :
    ((obfs ks c? true rnd f buf).2.take (usefulLenOf c? true f.Payload.length)).take 3 =
      [0x17, 0x03, 0x03] ∧
    u16 ((((obfs ks c? true rnd f buf).2.take
        (usefulLenOf c? true f.Payload.length)).drop 3).take 2) =
      (14 + f.Payload.length + extraLenOf c? f.Payload.length) % 65536 :=
  obfs_recordLayer_spec ks c? rnd f buf hbuf

/-- Witness for the amended C9 at a concrete frame. -/
theorem C9_record_layer_format_witness :
    ((obfs ks0 none true rnd0 f0 (List.replicate 27 0)).2.take
        (usefulLenOf none true f0.Payload.length)).take 3 = [0x17, 0x03, 0x03] ∧
    u16 ((((obfs ks0 none true rnd0 f0 (List.replicate 27 0)).2.take
        (usefulLenOf none true f0.Payload.length)).drop 3).take 2) =
      (14 + f0.Payload.length + extraLenOf none f0.Payload.length) % 65536 :=
  C9_record_layer_format ks0 none rnd0 f0 (List.replicate 27 0) (by decide)

/-- C9 counterexample: for a frame whose `14 + len(payload) + extra_len`
is 65536 (not representable in 16 bits), the length field holds 0, not
the claimed exact value. -/
theorem C9_length_field_truncates :
    u16 ((((obfs ks0 none true rnd0 ⟨0, 0, 0, List.replicate 65522 0⟩
          (List.replicate 65541 0)).2.take
        (usefulLenOf none true (Frame.mk 0 0 0 (List.replicate 65522 0)).Payload.length)).drop
          3).take 2) ≠
      14 + (Frame.mk 0 0 0 (List.replicate 65522 0)).Payload.length +
        extraLenOf none (Frame.mk 0 0 0 (List.replicate 65522 0)).Payload.length := by
  have h := (obfs_recordLayer_spec ks0 none rnd0 ⟨0, 0, 0, List.replicate 65522 0⟩
    (List.replicate 65541 0)
    (by rw [List.length_replicate, List.length_replicate]
        norm_num [usefulLenOf, extraLenOf, rlLenOf, HEADER_LEN])).2
  rw [h]
  have hlen : (Frame.mk 0 0 0 (List.replicate 65522 0)).Payload.length = 65522 :=
    List.length_replicate 65522 0
  rw [hlen]
  have he : extraLenOf none 65522 = 0 := by norm_num [extraLenOf]
  rw [he]
  omega

end Multiplex
